import Mathlib

/-!
Shallow embedding of the distributed coordination service
(`src/mcp-coordination/src/coordination.py` and
`src/extras/redis-coordination/mcp-server/src/config.py`).

Timestamps are modelled as integers (seconds); the Redis backing store is
modelled as three association-list maps (lock keys, session records,
heartbeat records), which is faithful because the three key families live
under disjoint prefixes (`claude:locks:`, `claude:sessions:`,
`claude:heartbeat:`).  Lock keys are stored by their suffix after
`claude:locks:` (e.g. `resource:pytest`, `issue:42`), matching how the code
reconstructs lock names by stripping that prefix.
-/

set_option autoImplicit false

namespace Coordination

/-! ## Configuration (`config.py`) -/

/-- Mirror of the `Config` dataclass: plain fields, no validation logic. -/
structure Config where
  SERVER_NAME : String
  SERVER_PORT : Int
  LOG_LEVEL : String
  REDIS_URL : String
  DEFAULT_LOCK_TIMEOUT : Int
  HEARTBEAT_TTL : Int
  ACTIVE_THRESHOLD : Int
  IDLE_THRESHOLD : Int
  STALE_THRESHOLD : Int
  ABANDONED_THRESHOLD : Int
deriving DecidableEq

/-- The dataclass field defaults. -/
def defaultConfig : Config :=
  { SERVER_NAME := "mcp-coordination"
    SERVER_PORT := 8082
    LOG_LEVEL := "INFO"
    REDIS_URL := "redis://localhost:6379/0"
    DEFAULT_LOCK_TIMEOUT := 300
    HEARTBEAT_TTL := 300
    ACTIVE_THRESHOLD := 300
    IDLE_THRESHOLD := 3600
    STALE_THRESHOLD := 14400
    ABANDONED_THRESHOLD := 86400 }

/-- Environment overrides visible to `Config.from_env` (absent = use default). -/
structure Env where
  SERVER_NAME : Option String
  SERVER_PORT : Option Int
  LOG_LEVEL : Option String
  REDIS_URL : Option String
  DEFAULT_LOCK_TIMEOUT : Option Int
  HEARTBEAT_TTL : Option Int
  ACTIVE_THRESHOLD : Option Int
  IDLE_THRESHOLD : Option Int
  STALE_THRESHOLD : Option Int
  ABANDONED_THRESHOLD : Option Int
deriving DecidableEq

/-- The all-absent environment. -/
def Env.empty : Env :=
  ⟨none, none, none, none, none, none, none, none, none, none⟩

/-- Mirror of `Config.from_env`: every field is `os.getenv(name, default)`
with an `int(...)` conversion where typed `int`; there is no other logic,
in particular no check relating the four staleness thresholds. -/
def Config.fromEnv (env : Env) : Config :=
  { SERVER_NAME := env.SERVER_NAME.getD defaultConfig.SERVER_NAME
    SERVER_PORT := env.SERVER_PORT.getD defaultConfig.SERVER_PORT
    LOG_LEVEL := env.LOG_LEVEL.getD defaultConfig.LOG_LEVEL
    REDIS_URL := env.REDIS_URL.getD defaultConfig.REDIS_URL
    DEFAULT_LOCK_TIMEOUT := env.DEFAULT_LOCK_TIMEOUT.getD defaultConfig.DEFAULT_LOCK_TIMEOUT
    HEARTBEAT_TTL := env.HEARTBEAT_TTL.getD defaultConfig.HEARTBEAT_TTL
    ACTIVE_THRESHOLD := env.ACTIVE_THRESHOLD.getD defaultConfig.ACTIVE_THRESHOLD
    IDLE_THRESHOLD := env.IDLE_THRESHOLD.getD defaultConfig.IDLE_THRESHOLD
    STALE_THRESHOLD := env.STALE_THRESHOLD.getD defaultConfig.STALE_THRESHOLD
    ABANDONED_THRESHOLD := env.ABANDONED_THRESHOLD.getD defaultConfig.ABANDONED_THRESHOLD }

/-! ## Branch-name parsing (`_parse_branch_context`)

Branch names are modelled as `List Char`.  The four regular expressions
`^issue-(\d+)`, `^wave-(\d+[a-z]?)\.(\d+)`, `^wave-(\d+[a-z]?)-(\d+)` and
`^wave-(\d+[a-z]?)` are implemented directly; for these patterns the greedy
left-to-right strategy needs no backtracking, because a digit is never a
lowercase letter, a dot or a dash, and a lowercase letter is never a dot or
a dash. -/

/-- `dropPre p l = some r` iff `l = p ++ r` (matching a literal prefix). -/
def dropPre : List Char → List Char → Option (List Char)
  | [], l => some l
  | _ :: _, [] => none
  | p :: ps, c :: cs => if c = p then dropPre ps cs else none

/-- Value of a digit string, as `int(...)` computes it. -/
def digitsVal (ds : List Char) : Nat :=
  ds.foldl (fun a c => 10 * a + (c.toNat - 48)) 0

/-- Match `\d+` greedily: the maximal nonempty digit run and the rest. -/
def matchDigits (l : List Char) : Option (List Char × List Char) :=
  let ds := l.takeWhile Char.isDigit
  if ds = [] then none else some (ds, l.dropWhile Char.isDigit)

/-- Match `\d+[a-z]?` greedily: capture and rest. -/
def matchWaveGroup (l : List Char) : Option (List Char × List Char) :=
  (matchDigits l).map fun p =>
    match p.2 with
    | c :: rest => if c.isLower then (p.1 ++ [c], rest) else p
    | [] => p

/-- Match `^issue-(\d+)` and return `int(group(1))`. -/
def matchIssue (b : List Char) : Option Nat :=
  (dropPre "issue-".data b).bind fun r =>
    (matchDigits r).map fun p => digitsVal p.1

/-- Match `^wave-(\d+[a-z]?)\.(\d+)`: groups 1 and `int(group(2))`. -/
def matchWaveDot (b : List Char) : Option (List Char × Nat) :=
  (dropPre "wave-".data b).bind fun r =>
    (matchWaveGroup r).bind fun g =>
      match g.2 with
      | c :: r2 =>
        if c = '.' then (matchDigits r2).map fun p => (g.1, digitsVal p.1)
        else none
      | [] => none

/-- Match `^wave-(\d+[a-z]?)-(\d+)`: groups 1 and `int(group(2))`. -/
def matchWaveDash (b : List Char) : Option (List Char × Nat) :=
  (dropPre "wave-".data b).bind fun r =>
    (matchWaveGroup r).bind fun g =>
      match g.2 with
      | c :: r2 =>
        if c = '-' then (matchDigits r2).map fun p => (g.1, digitsVal p.1)
        else none
      | [] => none

/-- Match `^wave-(\d+[a-z]?)`: group 1. -/
def matchWave (b : List Char) : Option (List Char) :=
  (dropPre "wave-".data b).bind fun r =>
    (matchWaveGroup r).map Prod.fst

/-- Lock context, the result of `_parse_branch_context`. -/
inductive Ctx where
  | issue (n : Nat)
  | wave (w : List Char) (issueNum : Option Nat)
  | branch (name : List Char)
  | unknown
deriving DecidableEq

/-- Mirror of `_parse_branch_context`: falsy branch (`None` or empty) gives
`unknown`; then the four patterns in source order, first match wins; any
other nonempty string is a `branch` context. -/
def parseBranchContext (branch : Option (List Char)) : Ctx :=
  match branch with
  | none => .unknown
  | some b =>
    if b = [] then .unknown
    else
      match matchIssue b with
      | some n => .issue n
      | none =>
        match matchWaveDot b with
        | some g => .wave g.1 (some g.2)
        | none =>
          match matchWaveDash b with
          | some g => .wave g.1 (some g.2)
          | none =>
            match matchWave b with
            | some w => .wave w none
            | none => .branch b

/-- Mirror of `_context_to_lock_key`. -/
def contextToLockKey : Ctx → String
  | .issue n => "issue:" ++ toString n
  | .wave w (some i) => "wave:" ++ String.mk w ++ "." ++ toString i
  | .wave w none => "wave:" ++ String.mk w
  | .branch name => "branch:" ++ String.mk name
  | .unknown => "unknown"

/-! ## Backing-store model -/

/-- The serialized lock record (`lock_data` in `acquire_lock`). -/
structure LockData where
  session_id : String
  acquired_at : Int
  expires_at : Int
  worktree : String
deriving DecidableEq

/-- A stored lock value together with the TTL last applied to its key. -/
structure LockEntry where
  data : LockData
  ttl : Int
deriving DecidableEq

/-- The serialized session record (`session_data` in `register_session`),
with the optional `last_heartbeat` field added by `heartbeat`. -/
structure SessionData where
  session_id : String
  started_at : Int
  worktree : String
  status : String
  metadata : List (String × String)
  last_heartbeat : Option Int
deriving DecidableEq

/-- A stored session value with the key's TTL (`none` = no expiry). -/
structure SessionEntry where
  data : SessionData
  ttl : Option Int
deriving DecidableEq

/-- A stored heartbeat value (an ISO timestamp in the code) with its TTL. -/
structure HeartbeatEntry where
  time : Int
  ttl : Int
deriving DecidableEq

/-- Association-list map operations (last write wins, duplicates pruned). -/
def alGet {α : Type} (m : List (String × α)) (k : String) : Option α :=
  (m.find? (fun p => p.1 = k)).map Prod.snd

def alSet {α : Type} (m : List (String × α)) (k : String) (v : α) :
    List (String × α) :=
  (k, v) :: m.filter (fun p => ¬ p.1 = k)

def alDel {α : Type} (m : List (String × α)) (k : String) :
    List (String × α) :=
  m.filter (fun p => ¬ p.1 = k)

/-- The whole backing store, split along the three disjoint key prefixes.
Lock keys are the suffix after the `claude:locks:` prefix; session and
heartbeat maps are keyed by session id. -/
structure State where
  locks : List (String × LockEntry)
  sessions : List (String × SessionEntry)
  heartbeats : List (String × HeartbeatEntry)
deriving DecidableEq

def State.empty : State := ⟨[], [], []⟩

/-- Well-formedness: the lock keyspace is a map (no duplicate keys), as in
Redis.  Operations preserve this; globally quantified invariants about
whole-map rewrites assume it. -/
def State.WF (σ : State) : Prop :=
  σ.locks.Pairwise fun a b => a.1 ≠ b.1

/-- The immutable per-process identity (`self.session_id`, `self.worktree`). -/
structure SessionCtx where
  session_id : String
  worktree : String
deriving DecidableEq

/-! ## Lock operations -/

/-- Key construction shared by `acquire_lock` / `release_lock` /
`check_lock`: a name containing `:` is already canonical, otherwise it is a
resource name.  (This yields the suffix after `claude:locks:`.) -/
def lockKeyOf (lock_name : String) : String :=
  if lock_name.data.contains ':' then lock_name else "resource:" ++ lock_name

/-- Result of `acquire_lock`, one constructor per return site. -/
inductive AcquireResult where
  | extended (lock_name : String) (expires_at : Int)
  | acquired (lock_name : String) (key : String) (expires_at : Int)
  | lockHeld (held_by : String) (worktree : String) (acquired_at : Int)
      (expires_at : Int)
  | raceCondition (held_by : String)
  | unknownFailure
deriving DecidableEq

/-- The `success` field of the returned dict. -/
def AcquireResult.success : AcquireResult → Bool
  | .extended _ _ => true
  | .acquired _ _ _ => true
  | _ => false

/-- Whether the returned dict carries `extended: True`. -/
def AcquireResult.isExtended : AcquireResult → Bool
  | .extended _ _ => true
  | _ => false

/-- The `reason` string of the returned dict, when unsuccessful. -/
def AcquireResult.reason? : AcquireResult → Option String
  | .lockHeld _ _ _ _ => some "lock_held"
  | .raceCondition _ => some "race_condition"
  | .unknownFailure => some "unknown"
  | _ => none

/-- `acquire_lock` with its three backend observation points made explicit:
`σ1` is the store at the initial `GET`, `σ2` the store at the `SET NX`
(other clients may have run in between), `σ3` the store at the re-read
after a failed `SET NX`.  The sequential semantics instantiates all three
with the same store. -/
def acquireLockC (cfg : Config) (me : SessionCtx) (branch : Option (List Char))
    (lock_name : String) (timeout_seconds : Option Int) (auto_detect : Bool)
    (now : Int) (σ1 σ2 σ3 : State) : State × AcquireResult :=
  let timeout := timeout_seconds.getD cfg.DEFAULT_LOCK_TIMEOUT
  let name :=
    if lock_name = "work" ∨ auto_detect then
      contextToLockKey (parseBranchContext branch)
    else lock_name
  let key := lockKeyOf name
  match alGet σ1.locks key with
  | some e =>
    if e.data.session_id = me.session_id then
      -- extend: EXPIRE then SET with ex=timeout; net TTL is timeout
      let d : LockData :=
        ⟨e.data.session_id, e.data.acquired_at, now + timeout, e.data.worktree⟩
      ({ σ1 with locks := alSet σ1.locks key ⟨d, timeout⟩ },
        .extended name (now + timeout))
    else
      (σ1, .lockHeld e.data.session_id e.data.worktree e.data.acquired_at
        e.data.expires_at)
  | none =>
    match alGet σ2.locks key with
    | none =>
      let d : LockData := ⟨me.session_id, now, now + timeout, me.worktree⟩
      ({ σ2 with locks := alSet σ2.locks key ⟨d, timeout⟩ },
        .acquired name ("claude:locks:" ++ key) (now + timeout))
    | some _ =>
      match alGet σ3.locks key with
      | some e => (σ3, .raceCondition e.data.session_id)
      | none => (σ3, .unknownFailure)

/-- Sequential `acquire_lock` (no interference between backend calls). -/
def acquireLock (cfg : Config) (me : SessionCtx) (branch : Option (List Char))
    (lock_name : String) (timeout_seconds : Option Int) (auto_detect : Bool)
    (now : Int) (σ : State) : State × AcquireResult :=
  acquireLockC cfg me branch lock_name timeout_seconds auto_detect now σ σ σ

/-- Result of `release_lock`, one constructor per return site. -/
inductive ReleaseResult where
  | released (lock_name : String)
  | lockNotFound
  | notOwner (held_by : String)
deriving DecidableEq

def ReleaseResult.success : ReleaseResult → Bool
  | .released _ => true
  | _ => false

/-- The `reason` string of the returned dict, when unsuccessful. -/
def ReleaseResult.reason? : ReleaseResult → Option String
  | .lockNotFound => some "lock_not_found"
  | .notOwner _ => some "not_owner"
  | .released _ => none

/-- Mirror of `release_lock`: resolve `work`, read, refuse when absent or
foreign, otherwise delete. -/
def releaseLock (me : SessionCtx) (branch : Option (List Char))
    (lock_name : String) (σ : State) : State × ReleaseResult :=
  let name :=
    if lock_name = "work" then contextToLockKey (parseBranchContext branch)
    else lock_name
  let key := lockKeyOf name
  match alGet σ.locks key with
  | none => (σ, .lockNotFound)
  | some e =>
    if e.data.session_id = me.session_id then
      ({ σ with locks := alDel σ.locks key }, .released name)
    else
      (σ, .notOwner e.data.session_id)

/-! ## Session operations -/

/-- Result of `register_session`. -/
structure RegisterResult where
  session_id : String
  registered_at : Int
deriving DecidableEq

/-- Mirror of `register_session`: unconditional `SET` of the session record
(no `nx`, no TTL) and a heartbeat `SET` with `ex=HEARTBEAT_TTL`. -/
def registerSession (cfg : Config) (me : SessionCtx)
    (metadata : Option (List (String × String))) (now : Int) (σ : State) :
    State × RegisterResult :=
  let sd : SessionData :=
    ⟨me.session_id, now, me.worktree, "active", metadata.getD [], none⟩
  ({ σ with
      sessions := alSet σ.sessions me.session_id ⟨sd, none⟩
      heartbeats := alSet σ.heartbeats me.session_id ⟨now, cfg.HEARTBEAT_TTL⟩ },
    ⟨me.session_id, now⟩)

/-- Mirror of `heartbeat`: re-`SET` the heartbeat key with TTL, then
best-effort refresh of the session record (status `active`,
`last_heartbeat = now`, re-written without TTL) when it exists. -/
def heartbeatOp (cfg : Config) (me : SessionCtx) (now : Int) (σ : State) :
    State :=
  let hbs := alSet σ.heartbeats me.session_id ⟨now, cfg.HEARTBEAT_TTL⟩
  let sessions :=
    match alGet σ.sessions me.session_id with
    | some e =>
      let d : SessionData :=
        ⟨e.data.session_id, e.data.started_at, e.data.worktree, "active",
          e.data.metadata, some now⟩
      alSet σ.sessions me.session_id ⟨d, none⟩
    | none => σ.sessions
  { σ with sessions := sessions, heartbeats := hbs }

/-- The tier cascade of `session_status` (given `age_seconds`): note the
final `else` branch puts every age at or above `STALE_THRESHOLD` into
`abandoned`; `ABANDONED_THRESHOLD` is not consulted. -/
def classifyAge (cfg : Config) (age : Int) : String :=
  if age < cfg.ACTIVE_THRESHOLD then "active"
  else if age < cfg.IDLE_THRESHOLD then "idle"
  else if age < cfg.STALE_THRESHOLD then "stale"
  else "abandoned"

/-- One entry of the `sessions` list returned by `session_status`. -/
structure SessionStatusEntry where
  session_id : String
  is_me : Bool
  status : String
  worktree : String
  started_at : Int
  heartbeat_age_seconds : Option Int
  metadata : List (String × String)
deriving DecidableEq

/-- Mirror of `session_status`: for every stored session record, look up
the heartbeat under the record's own `session_id` and classify. -/
def sessionStatus (cfg : Config) (me : SessionCtx) (now : Int) (σ : State) :
    List SessionStatusEntry :=
  σ.sessions.map fun p =>
    let d := p.2.data
    match alGet σ.heartbeats d.session_id with
    | some hb =>
      ⟨d.session_id, d.session_id = me.session_id,
        classifyAge cfg (now - hb.time), d.worktree, d.started_at,
        some (now - hb.time), d.metadata⟩
    | none =>
      ⟨d.session_id, d.session_id = me.session_id, "no_heartbeat",
        d.worktree, d.started_at, none, d.metadata⟩

/-- Result of `unregister_session`. -/
structure UnregisterResult where
  session_id : String
  released_locks : List String
deriving DecidableEq

/-- Mirror of `unregister_session`: delete every lock whose record's
`session_id` is ours (collecting the key suffixes as released names), then
delete the session record and the heartbeat key. -/
def unregisterSession (me : SessionCtx) (σ : State) :
    State × UnregisterResult :=
  let mine := σ.locks.filter fun p => p.2.data.session_id = me.session_id
  ({ locks := σ.locks.filter fun p => ¬ p.2.data.session_id = me.session_id
     sessions := alDel σ.sessions me.session_id
     heartbeats := alDel σ.heartbeats me.session_id },
    ⟨me.session_id, mine.map Prod.fst⟩)

/-! ## Backend write trace of `unregister_session`

To state that every lock deletion happens before the session/heartbeat
deletions, the backend calls of `unregister_session` are reified as a
trace of primitive store operations (in program order) together with an
interpreter, and the interpreter is proved to reproduce
`unregisterSession`'s final state. -/

/-- A primitive backend write against the modelled store. -/
inductive PrimOp where
  | delLock (key : String)
  | delSession (sid : String)
  | delHeartbeat (sid : String)
deriving DecidableEq

/-- The sequence of backend writes `unregister_session` issues, in program
order: the loop over `KEYS claude:locks:*` deletes matching locks first,
then the session key, then the heartbeat key. -/
def unregisterTrace (me : SessionCtx) (σ : State) : List PrimOp :=
  ((σ.locks.filter fun p => p.2.data.session_id = me.session_id).map
      fun p => PrimOp.delLock p.1)
    ++ [PrimOp.delSession me.session_id, PrimOp.delHeartbeat me.session_id]

/-- Interpreter for primitive writes. -/
def applyPrim (σ : State) : PrimOp → State
  | .delLock k => { σ with locks := alDel σ.locks k }
  | .delSession s => { σ with sessions := alDel σ.sessions s }
  | .delHeartbeat s => { σ with heartbeats := alDel σ.heartbeats s }

def applyTrace (σ : State) (t : List PrimOp) : State :=
  t.foldl applyPrim σ

/-! ## The write surface as one operation type (for global invariants) -/

/-- Every state-mutating operation of the coordination manager. -/
inductive Op where
  | acquire (cfg : Config) (me : SessionCtx) (branch : Option (List Char))
      (lock_name : String) (timeout_seconds : Option Int) (auto_detect : Bool)
      (now : Int)
  | release (me : SessionCtx) (branch : Option (List Char)) (lock_name : String)
  | register (cfg : Config) (me : SessionCtx)
      (metadata : Option (List (String × String))) (now : Int)
  | hb (cfg : Config) (me : SessionCtx) (now : Int)
  | unregister (me : SessionCtx)

/-- Sequential state transition of each operation. -/
def applyOp (σ : State) : Op → State
  | .acquire cfg me branch n t a now => (acquireLock cfg me branch n t a now σ).1
  | .release me branch n => (releaseLock me branch n σ).1
  | .register cfg me md now => (registerSession cfg me md now σ).1
  | .hb cfg me now => heartbeatOp cfg me now σ
  | .unregister me => (unregisterSession me σ).1

/-! ## Resolved names and keys (as computed inside the operations) -/

/-- The lock name `acquire_lock` actually uses after `work`/auto-detect
resolution. -/
def acquireNameOf (branch : Option (List Char)) (lock_name : String)
    (auto_detect : Bool) : String :=
  if lock_name = "work" ∨ auto_detect then
    contextToLockKey (parseBranchContext branch)
  else lock_name

/-- The store key (suffix) `acquire_lock` operates on. -/
def acquireKeyOf (branch : Option (List Char)) (lock_name : String)
    (auto_detect : Bool) : String :=
  lockKeyOf (acquireNameOf branch lock_name auto_detect)

/-- The lock name `release_lock` actually uses after `work` resolution. -/
def releaseNameOf (branch : Option (List Char)) (lock_name : String) : String :=
  if lock_name = "work" then contextToLockKey (parseBranchContext branch)
  else lock_name

/-- The store key (suffix) `release_lock` operates on. -/
def releaseKeyOf (branch : Option (List Char)) (lock_name : String) : String :=
  lockKeyOf (releaseNameOf branch lock_name)

/-! ## Declarative semantics of the four anchored patterns

These propositions spell out, as existence of a decomposition of the
branch string, exactly when each anchored regular expression matches and
what its greedy capture groups are.  They are the yardstick against which
the executable matcher above is verified. -/

/-- A nonempty run of digits (`\d+`). -/
def DigitsRun (ds : List Char) : Prop :=
  ds ≠ [] ∧ ∀ c ∈ ds, c.isDigit = true

/-- The remainder does not begin with a digit (greedy `\d+` maximality). -/
def noDigitHead (l : List Char) : Prop :=
  ∀ c, l.head? = some c → c.isDigit = false

/-- The remainder does not begin with a lowercase letter (greedy `[a-z]?`). -/
def noLowerHead (l : List Char) : Prop :=
  ∀ c, l.head? = some c → c.isLower = false

/-- Shape of a `\d+[a-z]?` capture: digits, optionally one lowercase
letter.  When a literal `.` or `-` follows, this shape alone pins the
greedy capture, since neither digits nor letters equal those literals. -/
def GroupShape (w : List Char) : Prop :=
  DigitsRun w ∨ ∃ ds c, w = ds ++ [c] ∧ DigitsRun ds ∧ c.isLower = true

/-- `^issue-(\d+)` matches `b` with `int(group(1)) = n`. -/
def IssueMatch (b : List Char) (n : Nat) : Prop :=
  ∃ ds r, b = "issue-".data ++ ds ++ r ∧ DigitsRun ds ∧ noDigitHead r ∧
    n = digitsVal ds

/-- `^wave-(\d+[a-z]?)\.(\d+)` matches `b` with greedy captures `w`, `n`. -/
def WaveDotMatch (b : List Char) (w : List Char) (n : Nat) : Prop :=
  ∃ ds2 r3, b = "wave-".data ++ w ++ '.' :: (ds2 ++ r3) ∧ GroupShape w ∧
    DigitsRun ds2 ∧ noDigitHead r3 ∧ n = digitsVal ds2

/-- `^wave-(\d+[a-z]?)-(\d+)` matches `b` with greedy captures `w`, `n`. -/
def WaveDashMatch (b : List Char) (w : List Char) (n : Nat) : Prop :=
  ∃ ds2 r3, b = "wave-".data ++ w ++ '-' :: (ds2 ++ r3) ∧ GroupShape w ∧
    DigitsRun ds2 ∧ noDigitHead r3 ∧ n = digitsVal ds2

/-- `^wave-(\d+[a-z]?)` matches `b` with greedy capture `w`: either `w` is
a digit run and nothing greedier was available (no digit and no lowercase
letter follows), or `w` ends in its optional letter. -/
def WaveMatch (b : List Char) (w : List Char) : Prop :=
  ∃ r, b = "wave-".data ++ w ++ r ∧
    ((DigitsRun w ∧ noDigitHead r ∧ noLowerHead r) ∨
      ∃ ds c, w = ds ++ [c] ∧ DigitsRun ds ∧ c.isLower = true)

/-- Some issue pattern match exists. -/
def HasIssue (b : List Char) : Prop := ∃ n, IssueMatch b n

/-- Some wave-dot pattern match exists. -/
def HasWaveDot (b : List Char) : Prop := ∃ w n, WaveDotMatch b w n

/-- Some wave-dash pattern match exists. -/
def HasWaveDash (b : List Char) : Prop := ∃ w n, WaveDashMatch b w n

/-- Some bare wave pattern match exists. -/
def HasWave (b : List Char) : Prop := ∃ w, WaveMatch b w

/-! ## Association-list map lemmas -/

theorem find?_filter_of_imp {α : Type} (p q : α → Bool) (l : List α)
    (h : ∀ x, p x = true → q x = true) :
    (l.filter q).find? p = l.find? p := by
  induction l with
  | nil => rfl
  | cons a l ih =>
    by_cases hq : q a = true
    · rw [List.filter_cons_of_pos hq]
      by_cases hp : p a = true
      · rw [List.find?_cons_of_pos _ hp, List.find?_cons_of_pos _ hp]
      · rw [List.find?_cons_of_neg _ (by simpa using hp),
          List.find?_cons_of_neg _ (by simpa using hp)]
        exact ih
    · have hp : ¬ p a = true := fun hpa => hq (h a hpa)
      rw [List.filter_cons_of_neg (by simpa using hq),
        List.find?_cons_of_neg _ (by simpa using hp)]
      exact ih

theorem alGet_alSet_self {α : Type} (m : List (String × α)) (k : String)
    (v : α) : alGet (alSet m k v) k = some v := by
  simp [alGet, alSet]

theorem alGet_alSet_ne {α : Type} (m : List (String × α)) (k k' : String)
    (v : α) (h : k' ≠ k) : alGet (alSet m k v) k' = alGet m k' := by
  simp only [alGet, alSet]
  rw [List.find?_cons_of_neg _ (by simpa using Ne.symm h)]
  rw [find?_filter_of_imp]
  intro x hx
  simp only [decide_eq_true_eq] at hx ⊢
  intro hk
  exact h (hx ▸ hk)

theorem alGet_alDel_self {α : Type} (m : List (String × α)) (k : String) :
    alGet (alDel m k) k = none := by
  simp only [alGet, alDel, Option.map_eq_none']
  rw [List.find?_eq_none]
  intro x hx
  have := (List.mem_filter.mp hx).2
  simp only [decide_eq_true_eq, decide_not, Bool.not_eq_true'] at this ⊢
  simpa using this

theorem alGet_alDel_ne {α : Type} (m : List (String × α)) (k k' : String)
    (h : k' ≠ k) : alGet (alDel m k) k' = alGet m k' := by
  simp only [alGet, alDel]
  rw [find?_filter_of_imp]
  intro x hx
  simp only [decide_eq_true_eq] at hx ⊢
  intro hk
  exact h (hx ▸ hk)

theorem alGet_filter {α : Type} (q : String × α → Bool) (m : List (String × α))
    (k : String) (v : α) (h : alGet (m.filter q) k = some v) :
    q (k, v) = true := by
  simp only [alGet, Option.map_eq_some'] at h
  obtain ⟨pr, hfind, hsnd⟩ := h
  have h1 : pr.1 = k := by simpa using List.find?_some hfind
  have h2 := List.of_mem_filter (List.mem_of_find?_eq_some hfind)
  have hpr : pr = (k, v) := by
    obtain ⟨a, b⟩ := pr
    simp_all
  rw [← hpr]
  exact h2

/-! ## C9 — startup threshold validation -/

/-- C9 counterexample: `Config.from_env` happily produces a configuration
with `ACTIVE_THRESHOLD = 5000 > IDLE_THRESHOLD = 100`; nothing rejects it,
so the claim that such configurations are rejected at startup is false. -/
theorem config_no_threshold_validation_cex :
    (Config.fromEnv ⟨none, none, none, none, none, none, some 5000, some 100,
        none, none⟩).ACTIVE_THRESHOLD = 5000 ∧
    (Config.fromEnv ⟨none, none, none, none, none, none, some 5000, some 100,
        none, none⟩).IDLE_THRESHOLD = 100 ∧
    ¬ ((Config.fromEnv ⟨none, none, none, none, none, none, some 5000,
        some 100, none, none⟩).ACTIVE_THRESHOLD <
      (Config.fromEnv ⟨none, none, none, none, none, none, some 5000,
        some 100, none, none⟩).IDLE_THRESHOLD) := by
  refine ⟨rfl, rfl, by decide⟩

/-- C9 (amended): `Config.from_env` performs no validation at all — each
staleness threshold is passed through verbatim from the environment (with
its dataclass default when absent), so any ordering is accepted; only the
built-in defaults 300 < 3600 < 14400 < 86400 happen to be strictly
increasing. -/
theorem config_fromEnv_pass_through :
    ∀ env : Env,
      (Config.fromEnv env).ACTIVE_THRESHOLD = env.ACTIVE_THRESHOLD.getD 300 ∧
      (Config.fromEnv env).IDLE_THRESHOLD = env.IDLE_THRESHOLD.getD 3600 ∧
      (Config.fromEnv env).STALE_THRESHOLD = env.STALE_THRESHOLD.getD 14400 ∧
      (Config.fromEnv env).ABANDONED_THRESHOLD =
        env.ABANDONED_THRESHOLD.getD 86400 ∧
      defaultConfig.ACTIVE_THRESHOLD < defaultConfig.IDLE_THRESHOLD ∧
      defaultConfig.IDLE_THRESHOLD < defaultConfig.STALE_THRESHOLD ∧
      defaultConfig.STALE_THRESHOLD < defaultConfig.ABANDONED_THRESHOLD := by
  intro env
  exact ⟨rfl, rfl, rfl, rfl, by decide, by decide, by decide⟩

/-! ## C10 — register_session is unconditional -/

/-- C10: `register_session` writes the session record with a plain set —
no not-exists guard and no TTL — for every prior state, so an existing
registration is silently overwritten: `started_at` becomes the current
time, `status` becomes `active`, `metadata` becomes the new value, and the
freshly written record carries no `last_heartbeat`.  The heartbeat key is
re-written with `HEARTBEAT_TTL`, locks are untouched, and other sessions'
records are untouched. -/
theorem register_session_unconditional :
    ∀ (cfg : Config) (me : SessionCtx) (md : Option (List (String × String)))
      (now : Int) (σ : State),
      alGet (registerSession cfg me md now σ).1.sessions me.session_id =
        some ⟨⟨me.session_id, now, me.worktree, "active", md.getD [], none⟩,
          none⟩ ∧
      alGet (registerSession cfg me md now σ).1.heartbeats me.session_id =
        some ⟨now, cfg.HEARTBEAT_TTL⟩ ∧
      (registerSession cfg me md now σ).1.locks = σ.locks ∧
      (∀ s, s ≠ me.session_id →
        alGet (registerSession cfg me md now σ).1.sessions s =
          alGet σ.sessions s) ∧
      (registerSession cfg me md now σ).2 = ⟨me.session_id, now⟩ := by
  intro cfg me md now σ
  refine ⟨?_, ?_, rfl, ?_, rfl⟩
  · exact alGet_alSet_self ..
  · exact alGet_alSet_self ..
  · intro s hs
    exact alGet_alSet_ne _ _ _ _ hs

/-! ## C5 — release semantics -/

/-- C5 counterexample: releasing an absent lock returns reason
`lock_not_found`, not the claimed `not_found`. -/
theorem release_missing_reason_cex :
    (releaseLock ⟨"sess-A", "/wt/a"⟩ none "pytest" State.empty).2.reason? =
      some "lock_not_found" ∧
    some "lock_not_found" ≠ some "not_found" := by
  exact ⟨by decide, by decide⟩

/-- C5 (amended): `release_lock` behaves exactly as claimed except that the
missing-lock reason string is `lock_not_found` (not `not_found`): absent
key ⇒ unsuccessful with reason `lock_not_found`; foreign owner ⇒
unsuccessful with reason `not_owner` carrying the holder and deleting
nothing; owner ⇒ the key is deleted (all else untouched) and success is
returned, after which a second release reports `lock_not_found`. -/
theorem release_lock_behavior :
    (∀ (me : SessionCtx) (branch : Option (List Char)) (lock_name : String)
        (σ : State),
      alGet σ.locks (releaseKeyOf branch lock_name) = none →
        releaseLock me branch lock_name σ = (σ, .lockNotFound) ∧
        ReleaseResult.reason? .lockNotFound = some "lock_not_found") ∧
    (∀ (me : SessionCtx) (branch : Option (List Char)) (lock_name : String)
        (σ : State) (e : LockEntry),
      alGet σ.locks (releaseKeyOf branch lock_name) = some e →
      e.data.session_id ≠ me.session_id →
        releaseLock me branch lock_name σ = (σ, .notOwner e.data.session_id) ∧
        ReleaseResult.reason? (.notOwner e.data.session_id) =
          some "not_owner") ∧
    (∀ (me : SessionCtx) (branch : Option (List Char)) (lock_name : String)
        (σ : State) (e : LockEntry),
      alGet σ.locks (releaseKeyOf branch lock_name) = some e →
      e.data.session_id = me.session_id →
        (releaseLock me branch lock_name σ).2 =
          .released (releaseNameOf branch lock_name) ∧
        alGet (releaseLock me branch lock_name σ).1.locks
          (releaseKeyOf branch lock_name) = none ∧
        (∀ k, k ≠ releaseKeyOf branch lock_name →
          alGet (releaseLock me branch lock_name σ).1.locks k =
            alGet σ.locks k) ∧
        (releaseLock me branch lock_name σ).1.sessions = σ.sessions ∧
        (releaseLock me branch lock_name σ).1.heartbeats = σ.heartbeats ∧
        (releaseLock me branch lock_name
            (releaseLock me branch lock_name σ).1).2 = .lockNotFound) := by
  refine ⟨?_, ?_, ?_⟩
  · intro me branch lock_name σ h
    simp only [releaseKeyOf, releaseNameOf] at h
    exact ⟨by simp [releaseLock, h], rfl⟩
  · intro me branch lock_name σ e h hne
    simp only [releaseKeyOf, releaseNameOf] at h
    exact ⟨by simp [releaseLock, h, hne], rfl⟩
  · intro me branch lock_name σ e h hown
    have hstep : releaseLock me branch lock_name σ =
        ({ σ with locks := alDel σ.locks (releaseKeyOf branch lock_name) },
          .released (releaseNameOf branch lock_name)) := by
      simp only [releaseKeyOf, releaseNameOf] at h ⊢
      simp [releaseLock, h, hown]
    rw [hstep]
    refine ⟨rfl, alGet_alDel_self .., ?_, rfl, rfl, ?_⟩
    · intro k hk
      exact alGet_alDel_ne _ _ _ hk
    · have h2 : alGet (alDel σ.locks (releaseKeyOf branch lock_name))
          (releaseKeyOf branch lock_name) = none := alGet_alDel_self ..
      simp only [releaseKeyOf, releaseNameOf] at h2 ⊢
      simp [releaseLock, h2]

/-! ## C6 — the closed set of reason strings -/

/-- C6 counterexample: when the initial read sees no lock, the `SET NX`
loses, and the re-read sees no lock either, `acquire_lock` returns reason
`unknown`, which lies outside the claimed six-string set (as does the
`lock_not_found` reason of `release_lock`). -/
theorem reason_outside_claimed_set_cex :
    (acquireLockC defaultConfig ⟨"A", "/a"⟩ none "pytest" (some 60) false 0
        State.empty
        ⟨[("resource:pytest", ⟨⟨"B", 0, 60, "/b"⟩, 60⟩)], [], []⟩
        State.empty).2.reason? = some "unknown" ∧
    ¬ "unknown" ∈ ["lock_held", "race_condition", "not_owner", "not_found",
      "invalid_argument", "backend_unavailable"] := by
  exact ⟨by decide, by decide⟩

/-- C6 (amended): every unsuccessful result of the lock operations carries
a reason from the closed five-string set `lock_held`, `race_condition`,
`not_owner`, `lock_not_found`, `unknown` — `not_found`, `invalid_argument`
and `backend_unavailable` are never produced by this code, and
`lock_not_found` / `unknown` are produced instead.  (The session
operations never return a reason at all.) -/
theorem reason_strings_closed_set :
    (∀ (cfg : Config) (me : SessionCtx) (branch : Option (List Char))
        (lock_name : String) (t : Option Int) (auto : Bool) (now : Int)
        (σ1 σ2 σ3 : State) (s : String),
      (acquireLockC cfg me branch lock_name t auto now σ1 σ2 σ3).2.reason? =
          some s →
        s ∈ ["lock_held", "race_condition", "not_owner", "lock_not_found",
          "unknown"]) ∧
    (∀ (me : SessionCtx) (branch : Option (List Char)) (lock_name : String)
        (σ : State) (s : String),
      (releaseLock me branch lock_name σ).2.reason? = some s →
        s ∈ ["lock_held", "race_condition", "not_owner", "lock_not_found",
          "unknown"]) := by
  constructor
  · intro cfg me branch lock_name t auto now σ1 σ2 σ3 s h
    cases hres : (acquireLockC cfg me branch lock_name t auto now σ1 σ2 σ3).2 <;>
      rw [hres] at h <;>
      simp only [AcquireResult.reason?, Option.some.injEq] at h <;>
      first
        | exact absurd h (by simp)
        | (subst h; simp)
  · intro me branch lock_name σ s h
    cases hres : (releaseLock me branch lock_name σ).2 <;>
      rw [hres] at h <;>
      simp only [ReleaseResult.reason?, Option.some.injEq] at h <;>
      first
        | exact absurd h (by simp)
        | (subst h; simp)

/-! ## C2 — idempotent re-acquire by the owner -/

/-- C2: when the resolved key holds a lock whose `session_id` is the
caller's, `acquire_lock` succeeds with `extended: true`, the stored record
keeps its `acquired_at` and `worktree` exactly, `expires_at` becomes
`now + ttl`, and the key's TTL is re-set to `ttl`; nothing else in the
store changes. -/
theorem acquire_same_session_extends :
    ∀ (cfg : Config) (me : SessionCtx) (branch : Option (List Char))
      (lock_name : String) (t : Option Int) (auto : Bool) (now : Int)
      (σ : State) (e : LockEntry),
      alGet σ.locks (acquireKeyOf branch lock_name auto) = some e →
      e.data.session_id = me.session_id →
      (acquireLock cfg me branch lock_name t auto now σ).2 =
        .extended (acquireNameOf branch lock_name auto)
          (now + t.getD cfg.DEFAULT_LOCK_TIMEOUT) ∧
      (acquireLock cfg me branch lock_name t auto now σ).2.success = true ∧
      (acquireLock cfg me branch lock_name t auto now σ).2.isExtended = true ∧
      alGet (acquireLock cfg me branch lock_name t auto now σ).1.locks
          (acquireKeyOf branch lock_name auto) =
        some ⟨⟨e.data.session_id, e.data.acquired_at,
          now + t.getD cfg.DEFAULT_LOCK_TIMEOUT, e.data.worktree⟩,
          t.getD cfg.DEFAULT_LOCK_TIMEOUT⟩ ∧
      (∀ k, k ≠ acquireKeyOf branch lock_name auto →
        alGet (acquireLock cfg me branch lock_name t auto now σ).1.locks k =
          alGet σ.locks k) ∧
      (acquireLock cfg me branch lock_name t auto now σ).1.sessions =
        σ.sessions ∧
      (acquireLock cfg me branch lock_name t auto now σ).1.heartbeats =
        σ.heartbeats := by
  intro cfg me branch lock_name t auto now σ e h hown
  have hstep : acquireLock cfg me branch lock_name t auto now σ =
      ({ σ with locks := (alSet σ.locks (acquireKeyOf branch lock_name auto)
          ⟨⟨e.data.session_id, e.data.acquired_at,
            now + t.getD cfg.DEFAULT_LOCK_TIMEOUT, e.data.worktree⟩,
            t.getD cfg.DEFAULT_LOCK_TIMEOUT⟩) },
        .extended (acquireNameOf branch lock_name auto)
          (now + t.getD cfg.DEFAULT_LOCK_TIMEOUT)) := by
    simp only [acquireKeyOf, acquireNameOf] at h ⊢
    simp [acquireLock, acquireLockC, h, hown]
  rw [hstep]
  refine ⟨rfl, rfl, rfl, alGet_alSet_self .., ?_, rfl, rfl⟩
  intro k hk
  exact alGet_alSet_ne _ _ _ _ hk

/-! ## Further map lemmas (for whole-map rewrites) -/

theorem alGet_cons_self {α : Type} (x : String × α) (tl : List (String × α))
    (k : String) (hk : x.1 = k) : alGet (x :: tl) k = some x.2 := by
  simp only [alGet]
  rw [List.find?_cons_of_pos _ (by simpa using hk)]
  rfl

theorem alGet_cons_ne {α : Type} (x : String × α) (tl : List (String × α))
    (k : String) (hk : x.1 ≠ k) : alGet (x :: tl) k = alGet tl k := by
  simp only [alGet]
  rw [List.find?_cons_of_neg _ (by simpa using hk)]

theorem alGet_eq_none_of_forall {α : Type} (m : List (String × α))
    (k : String) (h : ∀ y ∈ m, y.1 ≠ k) : alGet m k = none := by
  simp only [alGet, Option.map_eq_none']
  rw [List.find?_eq_none]
  intro x hx
  simpa using h x hx

/-- On a duplicate-free map, a filtered lookup that succeeds agrees with
the unfiltered lookup. -/
theorem alGet_filter_wf {α : Type} (q : String × α → Bool)
    (m : List (String × α)) (hwf : m.Pairwise fun a b => a.1 ≠ b.1)
    (k : String) (v : α) (h : alGet (m.filter q) k = some v) :
    alGet m k = some v := by
  induction m with
  | nil => simp [alGet] at h
  | cons x tl ih =>
    rw [List.pairwise_cons] at hwf
    by_cases hk : x.1 = k
    · by_cases hq : q x = true
      · rw [List.filter_cons_of_pos hq, alGet_cons_self x _ _ hk] at h
        rw [alGet_cons_self x _ _ hk]
        exact h
      · rw [List.filter_cons_of_neg (by simpa using hq)] at h
        have : alGet (tl.filter q) k = none := by
          refine alGet_eq_none_of_forall _ _ ?_
          intro y hy
          exact hk ▸ Ne.symm (hwf.1 y (List.mem_of_mem_filter hy))
        rw [this] at h
        exact absurd h (by simp)
    · have htl : alGet (tl.filter q) k = some v := by
        by_cases hq : q x = true
        · rwa [List.filter_cons_of_pos hq, alGet_cons_ne x _ _ hk] at h
        · rwa [List.filter_cons_of_neg (by simpa using hq)] at h
      rw [alGet_cons_ne x _ _ hk]
      exact ih hwf.2 htl

/-! ## C1 — no write on foreign acquire; no direct ownership handoff -/

/-- C1: (i) when the key holds a lock of a different session,
`acquire_lock` leaves the entire store untouched — record, owner and TTL
included — and returns an unsuccessful result with reason `lock_held`
carrying the holder's `session_id`, `worktree`, `acquired_at` and
`expires_at`; (ii) across every state-mutating operation of the manager,
a lock key never passes directly from one holder to a different holder:
if the key is present before and after, the owner is unchanged. -/
theorem no_direct_handoff :
    (∀ (cfg : Config) (me : SessionCtx) (branch : Option (List Char))
        (lock_name : String) (t : Option Int) (auto : Bool) (now : Int)
        (σ : State) (e : LockEntry),
      alGet σ.locks (acquireKeyOf branch lock_name auto) = some e →
      e.data.session_id ≠ me.session_id →
        acquireLock cfg me branch lock_name t auto now σ =
          (σ, .lockHeld e.data.session_id e.data.worktree e.data.acquired_at
            e.data.expires_at) ∧
        AcquireResult.reason? (.lockHeld e.data.session_id e.data.worktree
          e.data.acquired_at e.data.expires_at) = some "lock_held" ∧
        AcquireResult.success (.lockHeld e.data.session_id e.data.worktree
          e.data.acquired_at e.data.expires_at) = false) ∧
    (∀ (op : Op) (σ : State) (k : String) (e e' : LockEntry),
      State.WF σ →
      alGet σ.locks k = some e →
      alGet (applyOp σ op).locks k = some e' →
        e'.data.session_id = e.data.session_id) := by
  constructor
  · intro cfg me branch lock_name t auto now σ e h hne
    simp only [acquireKeyOf, acquireNameOf] at h
    exact ⟨by simp [acquireLock, acquireLockC, h, hne], rfl, rfl⟩
  · intro op σ k e e' hwf h1 h2
    cases op with
    | acquire cfg me branch n t a now =>
      simp only [applyOp, acquireLock, acquireLockC] at h2
      cases hget : alGet σ.locks
          (lockKeyOf (if n = "work" ∨ a = true then
            contextToLockKey (parseBranchContext branch) else n)) with
      | some f =>
        rw [hget] at h2
        dsimp only at h2
        by_cases hs : f.data.session_id = me.session_id
        · rw [if_pos hs] at h2
          dsimp only at h2
          by_cases hk : k = lockKeyOf (if n = "work" ∨ a = true then
              contextToLockKey (parseBranchContext branch) else n)
          · subst hk
            rw [alGet_alSet_self] at h2
            rw [hget] at h1
            cases h1
            cases h2
            rfl
          · rw [alGet_alSet_ne _ _ _ _ hk] at h2
            rw [h1] at h2
            cases h2
            rfl
        · rw [if_neg hs] at h2
          dsimp only at h2
          rw [h1] at h2
          cases h2
          rfl
      | none =>
        rw [hget] at h2
        dsimp only at h2
        by_cases hk : k = lockKeyOf (if n = "work" ∨ a = true then
            contextToLockKey (parseBranchContext branch) else n)
        · subst hk
          rw [h1] at hget
          exact absurd hget (by simp)
        · rw [alGet_alSet_ne _ _ _ _ hk] at h2
          rw [h1] at h2
          cases h2
          rfl
    | release me branch n =>
      simp only [applyOp, releaseLock] at h2
      cases hget : alGet σ.locks
          (lockKeyOf (if n = "work" then
            contextToLockKey (parseBranchContext branch) else n)) with
      | some f =>
        rw [hget] at h2
        dsimp only at h2
        by_cases hs : f.data.session_id = me.session_id
        · rw [if_pos hs] at h2
          dsimp only at h2
          by_cases hk : k = lockKeyOf (if n = "work" then
              contextToLockKey (parseBranchContext branch) else n)
          · subst hk
            rw [alGet_alDel_self] at h2
            exact absurd h2 (by simp)
          · rw [alGet_alDel_ne _ _ _ hk] at h2
            rw [h1] at h2
            cases h2
            rfl
        · rw [if_neg hs] at h2
          dsimp only at h2
          rw [h1] at h2
          cases h2
          rfl
      | none =>
        rw [hget] at h2
        dsimp only at h2
        rw [h1] at h2
        cases h2
        rfl
    | register cfg me md now =>
      simp only [applyOp, registerSession] at h2
      rw [h1] at h2
      cases h2
      rfl
    | hb cfg me now =>
      simp only [applyOp, heartbeatOp] at h2
      rw [h1] at h2
      cases h2
      rfl
    | unregister me =>
      simp only [applyOp, unregisterSession] at h2
      have := alGet_filter_wf _ _ hwf _ _ h2
      rw [h1] at this
      cases this
      rfl

/-! ## C3 — unregister releases all own locks first -/

theorem applyTrace_append (σ : State) (a b : List PrimOp) :
    applyTrace σ (a ++ b) = applyTrace (applyTrace σ a) b := by
  simp [applyTrace, List.foldl_append]

theorem applyTrace_delLocks (ks : List String) :
    ∀ σ : State, applyTrace σ (ks.map PrimOp.delLock) =
      { σ with locks := List.foldl alDel σ.locks ks } := by
  induction ks with
  | nil => intro σ; rfl
  | cons c ks ih =>
    intro σ
    simpa [applyTrace, applyPrim] using ih { σ with locks := alDel σ.locks c }

theorem alDel_cons_ne {α : Type} (x : String × α) (tl : List (String × α))
    (c : String) (h : x.1 ≠ c) : alDel (x :: tl) c = x :: alDel tl c := by
  simp only [alDel]
  rw [List.filter_cons_of_pos (by simpa using h)]

theorem foldl_alDel_cons {α : Type} (x : String × α) (ks : List String)
    (h : ∀ c ∈ ks, x.1 ≠ c) :
    ∀ tl : List (String × α), List.foldl alDel (x :: tl) ks =
      x :: List.foldl alDel tl ks := by
  induction ks with
  | nil => intro tl; rfl
  | cons c ks ih =>
    intro tl
    have hxc : x.1 ≠ c := h c (by simp)
    calc List.foldl alDel (x :: tl) (c :: ks)
        = List.foldl alDel (alDel (x :: tl) c) ks := rfl
      _ = List.foldl alDel (x :: alDel tl c) ks := by rw [alDel_cons_ne _ _ _ hxc]
      _ = x :: List.foldl alDel (alDel tl c) ks := ih (fun d hd => h d (by simp [hd])) _
      _ = x :: List.foldl alDel tl (c :: ks) := rfl

theorem alDel_eq_self {α : Type} (tl : List (String × α)) (c : String)
    (h : ∀ y ∈ tl, y.1 ≠ c) : alDel tl c = tl := by
  simp only [alDel]
  rw [List.filter_eq_self]
  intro y hy
  simpa using h y hy

/-- Deleting, one key at a time, every key whose entry belongs to `sid`
from a duplicate-free lock map leaves exactly the entries of the other
sessions. -/
theorem foldl_alDel_mine (sid : String) :
    ∀ m : List (String × LockEntry), (m.Pairwise fun a b => a.1 ≠ b.1) →
      List.foldl alDel m
          ((m.filter fun p => p.2.data.session_id = sid).map Prod.fst) =
        m.filter fun p => ¬ p.2.data.session_id = sid := by
  intro m
  induction m with
  | nil => intro _; rfl
  | cons x tl ih =>
    intro hwf
    rw [List.pairwise_cons] at hwf
    by_cases hq : x.2.data.session_id = sid
    · rw [List.filter_cons_of_pos (by simpa using hq), List.map_cons]
      have hdel : alDel (x :: tl) x.1 = tl := by
        have : alDel (x :: tl) x.1 = alDel tl x.1 := by
          simp [alDel, List.filter_cons_of_neg]
        rw [this]
        exact alDel_eq_self tl x.1 fun y hy => Ne.symm (hwf.1 y hy)
      calc List.foldl alDel (x :: tl)
            (x.1 :: (tl.filter fun p => p.2.data.session_id = sid).map Prod.fst)
          = List.foldl alDel (alDel (x :: tl) x.1)
            ((tl.filter fun p => p.2.data.session_id = sid).map Prod.fst) := rfl
        _ = List.foldl alDel tl
            ((tl.filter fun p => p.2.data.session_id = sid).map Prod.fst) := by
              rw [hdel]
        _ = tl.filter fun p => ¬ p.2.data.session_id = sid := ih hwf.2
        _ = (x :: tl).filter fun p => ¬ p.2.data.session_id = sid := by
              rw [List.filter_cons_of_neg (by simpa using hq)]
    · rw [List.filter_cons_of_neg (by simpa using hq)]
      have hks : ∀ c ∈ (tl.filter fun p => p.2.data.session_id = sid).map
          Prod.fst, x.1 ≠ c := by
        intro c hc
        rw [List.mem_map] at hc
        obtain ⟨y, hy, hyc⟩ := hc
        exact hyc ▸ hwf.1 y (List.mem_of_mem_filter hy)
      rw [foldl_alDel_cons x _ hks tl, ih hwf.2,
        List.filter_cons_of_pos (by simpa using hq)]

/-- C3: `unregister_session` (i) leaves no lock owned by the caller — any
surviving entry belongs to another session; (ii) removes the caller's
session and heartbeat records; (iii) returns exactly the names (key
suffixes) of the locks the caller held at call time; and (iv) its backend
write trace consists of the lock deletions followed — strictly afterwards
— by the session-record and heartbeat deletions, and on a well-formed
store replaying that trace yields exactly the operation's final state. -/
theorem unregister_cascade :
    ∀ (me : SessionCtx) (σ : State),
      (∀ (k : String) (e' : LockEntry),
        alGet (unregisterSession me σ).1.locks k = some e' →
          e'.data.session_id ≠ me.session_id) ∧
      alGet (unregisterSession me σ).1.sessions me.session_id = none ∧
      alGet (unregisterSession me σ).1.heartbeats me.session_id = none ∧
      (unregisterSession me σ).2 = ⟨me.session_id,
        (σ.locks.filter fun p => p.2.data.session_id = me.session_id).map
          Prod.fst⟩ ∧
      (∃ pre, unregisterTrace me σ =
          pre ++ [.delSession me.session_id, .delHeartbeat me.session_id] ∧
        ∀ op ∈ pre, ∃ key, op = PrimOp.delLock key) ∧
      (State.WF σ →
        applyTrace σ (unregisterTrace me σ) = (unregisterSession me σ).1) := by
  intro me σ
  refine ⟨?_, alGet_alDel_self .., alGet_alDel_self .., rfl, ?_, ?_⟩
  · intro k e' h
    have := alGet_filter _ _ _ _ h
    simpa using this
  · refine ⟨(σ.locks.filter fun p =>
      p.2.data.session_id = me.session_id).map fun p => PrimOp.delLock p.1,
      ?_, ?_⟩
    · simp [unregisterTrace]
    · intro op hop
      rw [List.mem_map] at hop
      obtain ⟨y, _, hy⟩ := hop
      exact ⟨y.1, hy.symm⟩
  · intro hwf
    have h1 : ((σ.locks.filter fun p =>
        p.2.data.session_id = me.session_id).map fun p => PrimOp.delLock p.1) =
        ((σ.locks.filter fun p =>
          p.2.data.session_id = me.session_id).map Prod.fst).map
            PrimOp.delLock := by
      simp [List.map_map, Function.comp]
    rw [show unregisterTrace me σ = _ ++
        [PrimOp.delSession me.session_id, PrimOp.delHeartbeat me.session_id]
      from rfl, applyTrace_append, h1, applyTrace_delLocks,
      foldl_alDel_mine me.session_id σ.locks hwf]
    rfl

/-! ## C8 — tiered staleness classification -/

/-- Characterization of the tier cascade: with increasing thresholds the
first three tiers are half-open intervals, but `abandoned` is the bare
final `else` — everything from `STALE_THRESHOLD` up, with no upper bound. -/
theorem classifyAge_spec (cfg : Config) (age : Int)
    (h1 : cfg.ACTIVE_THRESHOLD < cfg.IDLE_THRESHOLD)
    (h2 : cfg.IDLE_THRESHOLD < cfg.STALE_THRESHOLD) :
    (classifyAge cfg age = "active" ↔ age < cfg.ACTIVE_THRESHOLD) ∧
    (classifyAge cfg age = "idle" ↔
      cfg.ACTIVE_THRESHOLD ≤ age ∧ age < cfg.IDLE_THRESHOLD) ∧
    (classifyAge cfg age = "stale" ↔
      cfg.IDLE_THRESHOLD ≤ age ∧ age < cfg.STALE_THRESHOLD) ∧
    (classifyAge cfg age = "abandoned" ↔ cfg.STALE_THRESHOLD ≤ age) := by
  unfold classifyAge
  split_ifs with ha hi hs <;>
    refine ⟨?_, ?_, ?_, ?_⟩ <;> constructor <;> intro h <;>
    first
      | exact absurd h (by decide)
      | rfl
      | omega

/-- C8 (amended): every entry of `session_status` is classified from its
heartbeat: absent heartbeat ⇒ `no_heartbeat`; otherwise with
`age = now - heartbeat time`, `active` iff `age < T_active`, `idle` iff
`T_active ≤ age < T_idle`, `stale` iff `T_idle ≤ age < T_stale`, and
`abandoned` iff `T_stale ≤ age` — with no upper bound:
`ABANDONED_THRESHOLD` is never consulted. -/
theorem session_status_tiers :
    ∀ (cfg : Config) (me : SessionCtx) (now : Int) (σ : State)
      (en : SessionStatusEntry),
      en ∈ sessionStatus cfg me now σ →
      cfg.ACTIVE_THRESHOLD < cfg.IDLE_THRESHOLD →
      cfg.IDLE_THRESHOLD < cfg.STALE_THRESHOLD →
      ((alGet σ.heartbeats en.session_id = none ∧
          en.status = "no_heartbeat" ∧ en.heartbeat_age_seconds = none) ∨
        (∃ hb, alGet σ.heartbeats en.session_id = some hb ∧
          en.heartbeat_age_seconds = some (now - hb.time) ∧
          (en.status = "active" ↔ now - hb.time < cfg.ACTIVE_THRESHOLD) ∧
          (en.status = "idle" ↔ cfg.ACTIVE_THRESHOLD ≤ now - hb.time ∧
            now - hb.time < cfg.IDLE_THRESHOLD) ∧
          (en.status = "stale" ↔ cfg.IDLE_THRESHOLD ≤ now - hb.time ∧
            now - hb.time < cfg.STALE_THRESHOLD) ∧
          (en.status = "abandoned" ↔
            cfg.STALE_THRESHOLD ≤ now - hb.time))) := by
  intro cfg me now σ en hen h1 h2
  simp only [sessionStatus, List.mem_map] at hen
  obtain ⟨p, hp, hpe⟩ := hen
  cases halg : alGet σ.heartbeats p.2.data.session_id with
  | none =>
    left
    rw [halg] at hpe
    dsimp only at hpe
    subst hpe
    exact ⟨halg, rfl, rfl⟩
  | some hb =>
    right
    rw [halg] at hpe
    dsimp only at hpe
    subst hpe
    obtain ⟨c1, c2, c3, c4⟩ := classifyAge_spec cfg (now - hb.time) h1 h2
    exact ⟨hb, halg, rfl, c1, c2, c3, c4⟩

/-! ## C4 — absence of input validation -/

/-- C4 counterexample: an `acquire` whose token resolves to the unknown
context (token `work` with no branch) is not rejected — it performs the
backend writes and creates a lock record under `resource:unknown`,
returning success rather than an invalid-argument failure. -/
theorem unknown_token_acquires_lock_cex :
    (acquireLock defaultConfig ⟨"sess-A", "/wt"⟩ none "work" (some 60) false 0
        State.empty).2 =
      .acquired "unknown" "claude:locks:resource:unknown" 60 ∧
    alGet (acquireLock defaultConfig ⟨"sess-A", "/wt"⟩ none "work" (some 60)
        false 0 State.empty).1.locks "resource:unknown" =
      some ⟨⟨"sess-A", 0, 60, "/wt"⟩, 60⟩ ∧
    AcquireResult.success
      (.acquired "unknown" "claude:locks:resource:unknown" 60) = true := by
  exact ⟨by decide, by decide, rfl⟩

/-- C4 (amended): `acquire_lock` and `release_lock` validate nothing:
a token resolving to the unknown context is mapped to the literal name
`unknown` and key `resource:unknown` and the operation proceeds against
the backend (acquire happily creates the degenerate lock record), and a
zero or negative TTL is passed through unchanged into the stored record
and key TTL instead of being rejected. -/
theorem no_input_validation :
    (∀ (cfg : Config) (me : SessionCtx) (branch : Option (List Char))
        (t : Option Int) (auto : Bool) (now : Int) (σ : State),
      parseBranchContext branch = .unknown →
      alGet σ.locks "resource:unknown" = none →
        (acquireLock cfg me branch "work" t auto now σ).2 =
          .acquired "unknown" "claude:locks:resource:unknown"
            (now + t.getD cfg.DEFAULT_LOCK_TIMEOUT) ∧
        alGet (acquireLock cfg me branch "work" t auto now σ).1.locks
            "resource:unknown" =
          some ⟨⟨me.session_id, now, now + t.getD cfg.DEFAULT_LOCK_TIMEOUT,
            me.worktree⟩, t.getD cfg.DEFAULT_LOCK_TIMEOUT⟩) ∧
    (∀ (cfg : Config) (me : SessionCtx) (branch : Option (List Char))
        (lock_name : String) (t : Int) (auto : Bool) (now : Int) (σ : State),
      t ≤ 0 →
      alGet σ.locks (acquireKeyOf branch lock_name auto) = none →
        alGet (acquireLock cfg me branch lock_name (some t) auto now
            σ).1.locks (acquireKeyOf branch lock_name auto) =
          some ⟨⟨me.session_id, now, now + t, me.worktree⟩, t⟩) ∧
    (∀ (me : SessionCtx) (branch : Option (List Char)) (σ : State),
      parseBranchContext branch = .unknown →
      alGet σ.locks "resource:unknown" = none →
        (releaseLock me branch "work" σ).2 = .lockNotFound) := by
  refine ⟨?_, ?_, ?_⟩
  · intro cfg me branch t auto now σ hp h0
    have hctk : contextToLockKey Ctx.unknown = "unknown" := rfl
    have hkey2 : lockKeyOf "unknown" = "resource:unknown" := by decide
    have happ : "claude:locks:" ++ "resource:unknown" =
        "claude:locks:resource:unknown" := by decide
    constructor
    · simp [acquireLock, acquireLockC, hp, hctk, hkey2, h0, happ]
    · have hstep : (acquireLock cfg me branch "work" t auto now σ).1.locks =
          alSet σ.locks "resource:unknown"
            ⟨⟨me.session_id, now, now + t.getD cfg.DEFAULT_LOCK_TIMEOUT,
              me.worktree⟩, t.getD cfg.DEFAULT_LOCK_TIMEOUT⟩ := by
        simp [acquireLock, acquireLockC, hp, hctk, hkey2, h0]
      rw [hstep, alGet_alSet_self]
  · intro cfg me branch lock_name t auto now σ ht h0
    simp only [acquireKeyOf, acquireNameOf] at h0 ⊢
    have hstep : (acquireLock cfg me branch lock_name (some t) auto now
        σ).1.locks =
        alSet σ.locks (lockKeyOf (if lock_name = "work" ∨ auto = true then
          contextToLockKey (parseBranchContext branch) else lock_name))
          ⟨⟨me.session_id, now, now + t, me.worktree⟩, t⟩ := by
      simp [acquireLock, acquireLockC, h0]
    rw [hstep, alGet_alSet_self]
  · intro me branch σ hp h0
    have hctk : contextToLockKey Ctx.unknown = "unknown" := rfl
    have hkey2 : lockKeyOf "unknown" = "resource:unknown" := by decide
    simp [releaseLock, hp, hctk, hkey2, h0]

/-! ## C7 -- branch parsing implements the five-rule cascade -/

theorem dropPre_eq_some (p : List Char) :
    ∀ (l r : List Char), dropPre p l = some r ↔ l = p ++ r := by
  induction p with
  | nil => intro l r; simp [dropPre]
  | cons c ps ih =>
    intro l r
    cases l with
    | nil => simp [dropPre]
    | cons d ds =>
      by_cases hd : d = c
      · subst hd
        simp [dropPre, ih]
      · simp [dropPre, hd]

theorem dropWhile_head_not (p : Char → Bool) :
    ∀ (l : List Char) (c : Char), (l.dropWhile p).head? = some c →
      p c = false := by
  intro l
  induction l with
  | nil => intro c h; simp at h
  | cons x xs ih =>
    intro c h
    by_cases hx : p x = true
    · rw [List.dropWhile_cons_of_pos hx] at h
      exact ih c h
    · rw [List.dropWhile_cons_of_neg (by simpa using hx)] at h
      simp at h
      rw [← h]
      simpa using hx

theorem takeWhile_of_split (p : Char → Bool) :
    ∀ (ds r : List Char), (∀ c ∈ ds, p c = true) →
      (∀ c, r.head? = some c → p c = false) →
      (ds ++ r).takeWhile p = ds ∧ (ds ++ r).dropWhile p = r := by
  intro ds
  induction ds with
  | nil =>
    intro r _ hr
    cases r with
    | nil => simp
    | cons c cs =>
      have hc := hr c rfl
      constructor
      · rw [List.nil_append,
          List.takeWhile_cons_of_neg (show ¬ p c = true by simp [hc])]
      · rw [List.nil_append,
          List.dropWhile_cons_of_neg (show ¬ p c = true by simp [hc])]
  | cons d ds ih =>
    intro r hds hr
    have hd : p d = true := hds d (by simp)
    obtain ⟨h1, h2⟩ := ih r (fun c hc => hds c (by simp [hc])) hr
    constructor
    · simp [List.takeWhile_cons_of_pos hd, h1]
    · simp [List.dropWhile_cons_of_pos hd, h2]

theorem matchDigits_eq_some (l ds r : List Char) :
    matchDigits l = some (ds, r) ↔
      l = ds ++ r ∧ DigitsRun ds ∧ noDigitHead r := by
  constructor
  · intro h
    simp only [matchDigits] at h
    by_cases he : l.takeWhile Char.isDigit = []
    · simp [he] at h
    · rw [if_neg he] at h
      simp only [Option.some.injEq, Prod.mk.injEq] at h
      obtain ⟨hds, hr⟩ := h
      subst hds
      subst hr
      refine ⟨(List.takeWhile_append_dropWhile Char.isDigit l).symm,
        ⟨he, fun c hc => List.mem_takeWhile_imp hc⟩,
        fun c hc => dropWhile_head_not Char.isDigit l c hc⟩
  · rintro ⟨hl, ⟨hne, hds⟩, hr⟩
    subst hl
    obtain ⟨h1, h2⟩ := takeWhile_of_split Char.isDigit ds r hds hr
    simp [matchDigits, h1, h2, hne]

theorem lower_not_digit (c : Char) (h : c.isLower = true) :
    c.isDigit = false := by
  simp only [Char.isLower, Bool.and_eq_true, decide_eq_true_eq] at h
  simp only [Char.isDigit, Bool.and_eq_true, decide_eq_true_eq,
    Bool.eq_false_iff, ne_eq, not_and]
  intro _ h57
  have h97 : 97 ≤ c.val.toNat := UInt32.le_toNat_of_le (by decide) h.1
  have h57n : c.val.toNat ≤ 57 := UInt32.toNat_le_of_le (by decide) h57
  omega

theorem matchWaveGroup_eq_some (l g r : List Char) :
    matchWaveGroup l = some (g, r) ↔
      l = g ++ r ∧
      ((DigitsRun g ∧ noDigitHead r ∧ noLowerHead r) ∨
        (∃ ds c, g = ds ++ [c] ∧ DigitsRun ds ∧ c.isLower = true)) := by
  constructor
  · intro h
    simp only [matchWaveGroup, Option.map_eq_some'] at h
    obtain ⟨⟨ds, rest⟩, hmd, hf⟩ := h
    obtain ⟨hl, hds, hrest⟩ := (matchDigits_eq_some l ds rest).mp hmd
    cases rest with
    | nil =>
      simp only at hf
      cases hf
      exact ⟨hl, Or.inl ⟨hds, fun c hc => by simp at hc,
        fun c hc => by simp at hc⟩⟩
    | cons c rest' =>
      simp only at hf
      by_cases hlow : c.isLower = true
      · rw [if_pos hlow] at hf
        cases hf
        refine ⟨?_, Or.inr ⟨ds, c, rfl, hds, hlow⟩⟩
        rw [hl, List.append_assoc, List.singleton_append]
      · rw [if_neg hlow] at hf
        cases hf
        refine ⟨hl, Or.inl ⟨hds, hrest, ?_⟩⟩
        intro d hd
        simp at hd
        rw [← hd]
        simpa using hlow
  · rintro ⟨hl, hcase | hcase⟩
    · obtain ⟨hg, hr, hrl⟩ := hcase
      subst hl
      have hmd : matchDigits (g ++ r) = some (g, r) :=
        (matchDigits_eq_some _ g r).mpr ⟨rfl, hg, hr⟩
      simp only [matchWaveGroup, hmd, Option.map_some']
      cases r with
      | nil => rfl
      | cons c rest' =>
        have : c.isLower = false := hrl c rfl
        simp [this]
    · obtain ⟨ds, c, hg, hds, hlow⟩ := hcase
      subst hg
      subst hl
      have hmd : matchDigits (ds ++ (c :: r)) = some (ds, c :: r) := by
        refine (matchDigits_eq_some _ ds (c :: r)).mpr ⟨rfl, hds, ?_⟩
        intro d hd
        simp at hd
        rw [← hd]
        exact lower_not_digit c hlow
      simp [matchWaveGroup, hmd, hlow]

theorem matchIssue_eq_some (b : List Char) (n : Nat) :
    matchIssue b = some n ↔ IssueMatch b n := by
  constructor
  · intro h
    simp only [matchIssue, Option.bind_eq_some, Option.map_eq_some'] at h
    obtain ⟨r0, hdp, ⟨ds, rest⟩, hmd, hn⟩ := h
    rw [dropPre_eq_some] at hdp
    obtain ⟨hr0, hds, hrest⟩ := (matchDigits_eq_some r0 ds rest).mp hmd
    exact ⟨ds, rest, by rw [hdp, hr0, List.append_assoc], hds, hrest, hn.symm⟩
  · rintro ⟨ds, r, hb, hds, hr, hn⟩
    have hdp : dropPre "issue-".data b = some (ds ++ r) := by
      rw [dropPre_eq_some, hb, List.append_assoc]
    have hmd : matchDigits (ds ++ r) = some (ds, r) :=
      (matchDigits_eq_some _ ds r).mpr ⟨rfl, hds, hr⟩
    simp [matchIssue, hdp, hmd, hn]

theorem matchWaveDot_eq_some (b : List Char) (w : List Char) (n : Nat) :
    matchWaveDot b = some (w, n) ↔ WaveDotMatch b w n := by
  constructor
  · intro h
    simp only [matchWaveDot, Option.bind_eq_some] at h
    obtain ⟨r0, hdp, ⟨g, r1⟩, hwg, hrest⟩ := h
    rw [dropPre_eq_some] at hdp
    obtain ⟨hr0, hcase⟩ := (matchWaveGroup_eq_some r0 g r1).mp hwg
    cases r1 with
    | nil => simp at hrest
    | cons c r2 =>
      dsimp only at hrest
      by_cases hc : c = '.'
      · subst hc
        rw [if_pos rfl] at hrest
        simp only [Option.map_eq_some'] at hrest
        obtain ⟨⟨ds2, r3⟩, hmd2, hn⟩ := hrest
        obtain ⟨hr2, hds2, hr3⟩ := (matchDigits_eq_some r2 ds2 r3).mp hmd2
        cases hn
        refine ⟨ds2, r3, ?_, ?_, hds2, hr3, rfl⟩
        · rw [hdp, hr0, hr2, List.append_assoc]
        · rcases hcase with ⟨hg, _, _⟩ | ⟨ds, c, hgeq, hds, hlow⟩
          · exact Or.inl hg
          · exact Or.inr ⟨ds, c, hgeq, hds, hlow⟩
      · rw [if_neg hc] at hrest
        exact absurd hrest (by simp)
  · rintro ⟨ds2, r3, hb, hshape, hds2, hr3, hn⟩
    have hdp : dropPre "wave-".data b =
        some (w ++ '.' :: (ds2 ++ r3)) := by
      rw [dropPre_eq_some, hb, List.append_assoc]
    have hwg : matchWaveGroup (w ++ '.' :: (ds2 ++ r3)) =
        some (w, '.' :: (ds2 ++ r3)) := by
      refine (matchWaveGroup_eq_some _ w _).mpr ⟨rfl, ?_⟩
      rcases hshape with hg | ⟨ds, c, hgeq, hds, hlow⟩
      · refine Or.inl ⟨hg, ?_, ?_⟩
        · intro d hd
          simp at hd
          rw [← hd]
          decide
        · intro d hd
          simp at hd
          rw [← hd]
          decide
      · exact Or.inr ⟨ds, c, hgeq, hds, hlow⟩
    have hmd2 : matchDigits (ds2 ++ r3) = some (ds2, r3) :=
      (matchDigits_eq_some _ ds2 r3).mpr ⟨rfl, hds2, hr3⟩
    simp [matchWaveDot, hdp, hwg, hmd2, hn]

theorem matchWaveDash_eq_some (b : List Char) (w : List Char) (n : Nat) :
    matchWaveDash b = some (w, n) ↔ WaveDashMatch b w n := by
  constructor
  · intro h
    simp only [matchWaveDash, Option.bind_eq_some] at h
    obtain ⟨r0, hdp, ⟨g, r1⟩, hwg, hrest⟩ := h
    rw [dropPre_eq_some] at hdp
    obtain ⟨hr0, hcase⟩ := (matchWaveGroup_eq_some r0 g r1).mp hwg
    cases r1 with
    | nil => simp at hrest
    | cons c r2 =>
      dsimp only at hrest
      by_cases hc : c = '-'
      · subst hc
        rw [if_pos rfl] at hrest
        simp only [Option.map_eq_some'] at hrest
        obtain ⟨⟨ds2, r3⟩, hmd2, hn⟩ := hrest
        obtain ⟨hr2, hds2, hr3⟩ := (matchDigits_eq_some r2 ds2 r3).mp hmd2
        cases hn
        refine ⟨ds2, r3, ?_, ?_, hds2, hr3, rfl⟩
        · rw [hdp, hr0, hr2, List.append_assoc]
        · rcases hcase with ⟨hg, _, _⟩ | ⟨ds, c, hgeq, hds, hlow⟩
          · exact Or.inl hg
          · exact Or.inr ⟨ds, c, hgeq, hds, hlow⟩
      · rw [if_neg hc] at hrest
        exact absurd hrest (by simp)
  · rintro ⟨ds2, r3, hb, hshape, hds2, hr3, hn⟩
    have hdp : dropPre "wave-".data b =
        some (w ++ '-' :: (ds2 ++ r3)) := by
      rw [dropPre_eq_some, hb, List.append_assoc]
    have hwg : matchWaveGroup (w ++ '-' :: (ds2 ++ r3)) =
        some (w, '-' :: (ds2 ++ r3)) := by
      refine (matchWaveGroup_eq_some _ w _).mpr ⟨rfl, ?_⟩
      rcases hshape with hg | ⟨ds, c, hgeq, hds, hlow⟩
      · refine Or.inl ⟨hg, ?_, ?_⟩
        · intro d hd
          simp at hd
          rw [← hd]
          decide
        · intro d hd
          simp at hd
          rw [← hd]
          decide
      · exact Or.inr ⟨ds, c, hgeq, hds, hlow⟩
    have hmd2 : matchDigits (ds2 ++ r3) = some (ds2, r3) :=
      (matchDigits_eq_some _ ds2 r3).mpr ⟨rfl, hds2, hr3⟩
    simp [matchWaveDash, hdp, hwg, hmd2, hn]

theorem matchWave_eq_some (b : List Char) (w : List Char) :
    matchWave b = some w ↔ WaveMatch b w := by
  constructor
  · intro h
    simp only [matchWave, Option.bind_eq_some, Option.map_eq_some'] at h
    obtain ⟨r0, hdp, ⟨g, r1⟩, hwg, hw⟩ := h
    rw [dropPre_eq_some] at hdp
    obtain ⟨hr0, hcase⟩ := (matchWaveGroup_eq_some r0 g r1).mp hwg
    dsimp only at hw
    subst hw
    exact ⟨r1, by rw [hdp, hr0, List.append_assoc], hcase⟩
  · rintro ⟨r, hb, hcase⟩
    have hdp : dropPre "wave-".data b = some (w ++ r) := by
      rw [dropPre_eq_some, hb, List.append_assoc]
    have hwg : matchWaveGroup (w ++ r) = some (w, r) :=
      (matchWaveGroup_eq_some _ w r).mpr ⟨rfl, hcase⟩
    simp [matchWave, hdp, hwg]

theorem matchIssue_eq_none (b : List Char) :
    matchIssue b = none ↔ ¬ HasIssue b := by
  constructor
  · rintro h ⟨n, hm⟩
    rw [(matchIssue_eq_some b n).mpr hm] at h
    cases h
  · intro h
    cases hm : matchIssue b with
    | none => rfl
    | some n => exact absurd ⟨n, (matchIssue_eq_some b n).mp hm⟩ h

theorem matchWaveDot_eq_none (b : List Char) :
    matchWaveDot b = none ↔ ¬ HasWaveDot b := by
  constructor
  · rintro h ⟨w, n, hm⟩
    rw [(matchWaveDot_eq_some b w n).mpr hm] at h
    cases h
  · intro h
    cases hm : matchWaveDot b with
    | none => rfl
    | some g =>
      exact absurd ⟨g.1, g.2, (matchWaveDot_eq_some b g.1 g.2).mp
        (by rw [hm])⟩ h

theorem matchWaveDash_eq_none (b : List Char) :
    matchWaveDash b = none ↔ ¬ HasWaveDash b := by
  constructor
  · rintro h ⟨w, n, hm⟩
    rw [(matchWaveDash_eq_some b w n).mpr hm] at h
    cases h
  · intro h
    cases hm : matchWaveDash b with
    | none => rfl
    | some g =>
      exact absurd ⟨g.1, g.2, (matchWaveDash_eq_some b g.1 g.2).mp
        (by rw [hm])⟩ h

theorem matchWave_eq_none (b : List Char) :
    matchWave b = none ↔ ¬ HasWave b := by
  constructor
  · rintro h ⟨w, hm⟩
    rw [(matchWave_eq_some b w).mpr hm] at h
    cases h
  · intro h
    cases hm : matchWave b with
    | none => rfl
    | some w => exact absurd ⟨w, (matchWave_eq_some b w).mp hm⟩ h

/-- C7: `_parse_branch_context` implements exactly the five-rule cascade,
in order, first match wins, each pattern anchored at the start only. -/
theorem parse_branch_context_rules :
    parseBranchContext none = Ctx.unknown ∧
    parseBranchContext (some []) = Ctx.unknown ∧
    (∀ (b : List Char) (n : Nat),
      parseBranchContext (some b) = Ctx.issue n ↔ IssueMatch b n) ∧
    (∀ (b w : List Char) (n : Nat),
      parseBranchContext (some b) = Ctx.wave w (some n) ↔
        ¬ HasIssue b ∧ (WaveDotMatch b w n ∨
          (¬ HasWaveDot b ∧ WaveDashMatch b w n))) ∧
    (∀ (b w : List Char),
      parseBranchContext (some b) = Ctx.wave w none ↔
        ¬ HasIssue b ∧ ¬ HasWaveDot b ∧ ¬ HasWaveDash b ∧ WaveMatch b w) ∧
    (∀ b : List Char, b ≠ [] →
      (parseBranchContext (some b) = Ctx.branch b ↔
        ¬ HasIssue b ∧ ¬ HasWaveDot b ∧ ¬ HasWaveDash b ∧ ¬ HasWave b)) := by
  refine ⟨rfl, rfl, ?_, ?_, ?_, ?_⟩
  · intro b n
    constructor
    · intro h
      by_cases hb : b = []
      · subst hb
        simp [parseBranchContext] at h
      · simp only [parseBranchContext, if_neg hb] at h
        cases hI : matchIssue b with
        | some m =>
          rw [hI] at h
          cases h
          exact (matchIssue_eq_some b n).mp hI
        | none =>
          rw [hI] at h
          cases hD : matchWaveDot b with
          | some g => rw [hD] at h; exact absurd h (by simp)
          | none =>
            rw [hD] at h
            cases hDa : matchWaveDash b with
            | some g => rw [hDa] at h; exact absurd h (by simp)
            | none =>
              rw [hDa] at h
              cases hW : matchWave b with
              | some w => rw [hW] at h; exact absurd h (by simp)
              | none => rw [hW] at h; exact absurd h (by simp)
    · intro hm
      have hb : b ≠ [] := by
        obtain ⟨ds, r, hbeq, _⟩ := hm
        rw [hbeq]
        simp
      have hI := (matchIssue_eq_some b n).mpr hm
      simp [parseBranchContext, hb, hI]
  · intro b w n
    constructor
    · intro h
      by_cases hb : b = []
      · subst hb
        simp [parseBranchContext] at h
      · simp only [parseBranchContext, if_neg hb] at h
        cases hI : matchIssue b with
        | some m => rw [hI] at h; exact absurd h (by simp)
        | none =>
          rw [hI] at h
          refine ⟨(matchIssue_eq_none b).mp hI, ?_⟩
          cases hD : matchWaveDot b with
          | some g =>
            rw [hD] at h
            obtain ⟨gw, gn⟩ := g
            simp only [Ctx.wave.injEq, Option.some.injEq] at h
            rw [← h.1, ← h.2]
            exact Or.inl ((matchWaveDot_eq_some b gw gn).mp hD)
          | none =>
            rw [hD] at h
            refine Or.inr ⟨(matchWaveDot_eq_none b).mp hD, ?_⟩
            cases hDa : matchWaveDash b with
            | some g =>
              rw [hDa] at h
              obtain ⟨gw, gn⟩ := g
              simp only [Ctx.wave.injEq, Option.some.injEq] at h
              rw [← h.1, ← h.2]
              exact (matchWaveDash_eq_some b gw gn).mp hDa
            | none =>
              rw [hDa] at h
              cases hW : matchWave b with
              | some w2 => rw [hW] at h; exact absurd h (by simp)
              | none => rw [hW] at h; exact absurd h (by simp)
    · rintro ⟨hnI, hcase⟩
      have hI := (matchIssue_eq_none b).mpr hnI
      rcases hcase with hm | ⟨hnD, hm⟩
      · have hb : b ≠ [] := by
          obtain ⟨ds2, r3, hbeq, _⟩ := hm
          rw [hbeq]
          simp
        have hD := (matchWaveDot_eq_some b w n).mpr hm
        simp [parseBranchContext, hb, hI, hD]
      · have hb : b ≠ [] := by
          obtain ⟨ds2, r3, hbeq, _⟩ := hm
          rw [hbeq]
          simp
        have hD := (matchWaveDot_eq_none b).mpr hnD
        have hDa := (matchWaveDash_eq_some b w n).mpr hm
        simp [parseBranchContext, hb, hI, hD, hDa]
  · intro b w
    constructor
    · intro h
      by_cases hb : b = []
      · subst hb
        simp [parseBranchContext] at h
      · simp only [parseBranchContext, if_neg hb] at h
        cases hI : matchIssue b with
        | some m => rw [hI] at h; exact absurd h (by simp)
        | none =>
          rw [hI] at h
          refine ⟨(matchIssue_eq_none b).mp hI, ?_⟩
          cases hD : matchWaveDot b with
          | some g => rw [hD] at h; exact absurd h (by simp)
          | none =>
            rw [hD] at h
            refine ⟨(matchWaveDot_eq_none b).mp hD, ?_⟩
            cases hDa : matchWaveDash b with
            | some g => rw [hDa] at h; exact absurd h (by simp)
            | none =>
              rw [hDa] at h
              refine ⟨(matchWaveDash_eq_none b).mp hDa, ?_⟩
              cases hW : matchWave b with
              | some w2 =>
                rw [hW] at h
                simp only [Ctx.wave.injEq] at h
                rw [← h.1]
                exact (matchWave_eq_some b w2).mp hW
              | none => rw [hW] at h; exact absurd h (by simp)
    · rintro ⟨hnI, hnD, hnDa, hm⟩
      have hb : b ≠ [] := by
        obtain ⟨r, hbeq, _⟩ := hm
        rw [hbeq]
        simp
      have hI := (matchIssue_eq_none b).mpr hnI
      have hD := (matchWaveDot_eq_none b).mpr hnD
      have hDa := (matchWaveDash_eq_none b).mpr hnDa
      have hW := (matchWave_eq_some b w).mpr hm
      simp [parseBranchContext, hb, hI, hD, hDa, hW]
  · intro b hb
    constructor
    · intro h
      simp only [parseBranchContext, if_neg hb] at h
      cases hI : matchIssue b with
      | some m => rw [hI] at h; exact absurd h (by simp)
      | none =>
        rw [hI] at h
        refine ⟨(matchIssue_eq_none b).mp hI, ?_⟩
        cases hD : matchWaveDot b with
        | some g => rw [hD] at h; exact absurd h (by simp)
        | none =>
          rw [hD] at h
          refine ⟨(matchWaveDot_eq_none b).mp hD, ?_⟩
          cases hDa : matchWaveDash b with
          | some g => rw [hDa] at h; exact absurd h (by simp)
          | none =>
            rw [hDa] at h
            refine ⟨(matchWaveDash_eq_none b).mp hDa, ?_⟩
            cases hW : matchWave b with
            | some w2 => rw [hW] at h; exact absurd h (by simp)
            | none => exact (matchWave_eq_none b).mp hW
    · rintro ⟨hnI, hnD, hnDa, hnW⟩
      have hI := (matchIssue_eq_none b).mpr hnI
      have hD := (matchWaveDot_eq_none b).mpr hnD
      have hDa := (matchWaveDash_eq_none b).mpr hnDa
      have hW := (matchWave_eq_none b).mpr hnW
      simp [parseBranchContext, hb, hI, hD, hDa, hW]

/-! ## C8 counterexample -/

/-- C8 counterexample: a heartbeat 100000 s old (past the 86400 s
`ABANDONED_THRESHOLD`) is still classified `abandoned`, so `abandoned`
does not hold "exactly when `T_stale ≤ age < T_abandoned`". -/
theorem abandoned_unbounded_cex :
    ((sessionStatus defaultConfig ⟨"A", "/a"⟩ 100000
        ⟨[], [("A", ⟨⟨"A", 0, "/a", "active", [], none⟩, none⟩)],
          [("A", ⟨0, 300⟩)]⟩).map fun en => en.status) = ["abandoned"] ∧
    ¬ ((100000 : Int) - 0 < defaultConfig.ABANDONED_THRESHOLD) := by
  exact ⟨by decide, by decide⟩

/-! ## Concrete witnesses -/

theorem no_direct_handoff_witness :
    (acquireLock defaultConfig ⟨"B", "/b"⟩ none "pytest" (some 60) false 5
        ⟨[("resource:pytest", ⟨⟨"A", 0, 60, "/a"⟩, 60⟩)], [], []⟩ =
      (⟨[("resource:pytest", ⟨⟨"A", 0, 60, "/a"⟩, 60⟩)], [], []⟩,
        .lockHeld "A" "/a" 0 60) ∧
      AcquireResult.reason? (.lockHeld "A" "/a" 0 60) = some "lock_held" ∧
      AcquireResult.success (.lockHeld "A" "/a" 0 60) = false) ∧
    (⟨⟨"A", 0, 65, "/a"⟩, 60⟩ : LockEntry).data.session_id =
      (⟨⟨"A", 0, 60, "/a"⟩, 60⟩ : LockEntry).data.session_id := by
  constructor
  · exact no_direct_handoff.1 defaultConfig ⟨"B", "/b"⟩ none "pytest"
      (some 60) false 5 ⟨[("resource:pytest", ⟨⟨"A", 0, 60, "/a"⟩, 60⟩)],
        [], []⟩ ⟨⟨"A", 0, 60, "/a"⟩, 60⟩ (by decide) (by decide)
  · exact no_direct_handoff.2
      (.acquire defaultConfig ⟨"A", "/a"⟩ none "pytest" (some 60) false 5)
      ⟨[("resource:pytest", ⟨⟨"A", 0, 60, "/a"⟩, 60⟩)], [], []⟩
      "resource:pytest" ⟨⟨"A", 0, 60, "/a"⟩, 60⟩ ⟨⟨"A", 0, 65, "/a"⟩, 60⟩
      (by unfold State.WF; decide) (by decide) (by decide)

theorem acquire_same_session_extends_witness :
    (acquireLock defaultConfig ⟨"A", "/a"⟩ none "pytest" (some 120) false 5
        ⟨[("resource:pytest", ⟨⟨"A", 0, 60, "/a"⟩, 60⟩)], [], []⟩).2 =
      .extended "pytest" 125 := by
  exact (acquire_same_session_extends defaultConfig ⟨"A", "/a"⟩ none "pytest"
    (some 120) false 5 ⟨[("resource:pytest", ⟨⟨"A", 0, 60, "/a"⟩, 60⟩)],
      [], []⟩ ⟨⟨"A", 0, 60, "/a"⟩, 60⟩ (by decide) (by decide)).1

theorem unregister_cascade_witness :
    (⟨⟨"B", 0, 60, "/b"⟩, 60⟩ : LockEntry).data.session_id ≠ "A" ∧
    applyTrace
      ⟨[("resource:pytest", ⟨⟨"A", 0, 60, "/a"⟩, 60⟩),
        ("issue:42", ⟨⟨"B", 0, 60, "/b"⟩, 60⟩)], [], []⟩
      (unregisterTrace ⟨"A", "/a"⟩
        ⟨[("resource:pytest", ⟨⟨"A", 0, 60, "/a"⟩, 60⟩),
          ("issue:42", ⟨⟨"B", 0, 60, "/b"⟩, 60⟩)], [], []⟩) =
      (unregisterSession ⟨"A", "/a"⟩
        ⟨[("resource:pytest", ⟨⟨"A", 0, 60, "/a"⟩, 60⟩),
          ("issue:42", ⟨⟨"B", 0, 60, "/b"⟩, 60⟩)], [], []⟩).1 := by
  constructor
  · exact (unregister_cascade ⟨"A", "/a"⟩
      ⟨[("resource:pytest", ⟨⟨"A", 0, 60, "/a"⟩, 60⟩),
        ("issue:42", ⟨⟨"B", 0, 60, "/b"⟩, 60⟩)], [], []⟩).1
      "issue:42" ⟨⟨"B", 0, 60, "/b"⟩, 60⟩ (by decide)
  · exact (unregister_cascade ⟨"A", "/a"⟩
      ⟨[("resource:pytest", ⟨⟨"A", 0, 60, "/a"⟩, 60⟩),
        ("issue:42", ⟨⟨"B", 0, 60, "/b"⟩, 60⟩)], [], []⟩).2.2.2.2.2
      (by unfold State.WF; decide)

theorem no_input_validation_witness :
    alGet (acquireLock defaultConfig ⟨"A", "/a"⟩ none "pytest" (some 0) false
        7 State.empty).1.locks (acquireKeyOf none "pytest" false) =
      some ⟨⟨"A", 7, 7, "/a"⟩, 0⟩ := by
  exact no_input_validation.2.1 defaultConfig ⟨"A", "/a"⟩ none "pytest" 0
    false 7 State.empty (by decide) (by decide)

theorem release_lock_behavior_witness :
    (releaseLock ⟨"A", "/a"⟩ none "pytest"
        ⟨[("resource:pytest", ⟨⟨"A", 0, 60, "/a"⟩, 60⟩)], [], []⟩).2 =
      .released (releaseNameOf none "pytest") := by
  exact (release_lock_behavior.2.2 ⟨"A", "/a"⟩ none "pytest"
    ⟨[("resource:pytest", ⟨⟨"A", 0, 60, "/a"⟩, 60⟩)], [], []⟩
    ⟨⟨"A", 0, 60, "/a"⟩, 60⟩ (by decide) (by decide)).1

theorem reason_strings_closed_set_witness :
    "lock_held" ∈ ["lock_held", "race_condition", "not_owner",
      "lock_not_found", "unknown"] := by
  exact reason_strings_closed_set.1 defaultConfig ⟨"B", "/b"⟩ none "pytest"
    (some 60) false 5
    ⟨[("resource:pytest", ⟨⟨"A", 0, 60, "/a"⟩, 60⟩)], [], []⟩
    ⟨[("resource:pytest", ⟨⟨"A", 0, 60, "/a"⟩, 60⟩)], [], []⟩
    ⟨[("resource:pytest", ⟨⟨"A", 0, 60, "/a"⟩, 60⟩)], [], []⟩
    "lock_held" (by decide)

theorem parse_branch_context_rules_witness :
    parseBranchContext (some "main".data) = Ctx.branch "main".data ↔
      ¬ HasIssue "main".data ∧ ¬ HasWaveDot "main".data ∧
      ¬ HasWaveDash "main".data ∧ ¬ HasWave "main".data := by
  exact parse_branch_context_rules.2.2.2.2.2 "main".data (by decide)

theorem session_status_tiers_witness :
    (alGet (⟨[], [("A", ⟨⟨"A", 0, "/a", "active", [], none⟩, none⟩)],
        [("A", ⟨0, 300⟩)]⟩ : State).heartbeats
      (⟨"A", true, "idle", "/a", 0, some 400, []⟩ :
        SessionStatusEntry).session_id = none ∧
      (⟨"A", true, "idle", "/a", 0, some 400, []⟩ :
        SessionStatusEntry).status = "no_heartbeat" ∧
      (⟨"A", true, "idle", "/a", 0, some 400, []⟩ :
        SessionStatusEntry).heartbeat_age_seconds = none) ∨
    (∃ hb, alGet (⟨[], [("A", ⟨⟨"A", 0, "/a", "active", [], none⟩, none⟩)],
        [("A", ⟨0, 300⟩)]⟩ : State).heartbeats
      (⟨"A", true, "idle", "/a", 0, some 400, []⟩ :
        SessionStatusEntry).session_id = some hb ∧
      (⟨"A", true, "idle", "/a", 0, some 400, []⟩ :
        SessionStatusEntry).heartbeat_age_seconds = some (400 - hb.time) ∧
      ((⟨"A", true, "idle", "/a", 0, some 400, []⟩ :
        SessionStatusEntry).status = "active" ↔
        400 - hb.time < defaultConfig.ACTIVE_THRESHOLD) ∧
      ((⟨"A", true, "idle", "/a", 0, some 400, []⟩ :
        SessionStatusEntry).status = "idle" ↔
        defaultConfig.ACTIVE_THRESHOLD ≤ 400 - hb.time ∧
        400 - hb.time < defaultConfig.IDLE_THRESHOLD) ∧
      ((⟨"A", true, "idle", "/a", 0, some 400, []⟩ :
        SessionStatusEntry).status = "stale" ↔
        defaultConfig.IDLE_THRESHOLD ≤ 400 - hb.time ∧
        400 - hb.time < defaultConfig.STALE_THRESHOLD) ∧
      ((⟨"A", true, "idle", "/a", 0, some 400, []⟩ :
        SessionStatusEntry).status = "abandoned" ↔
        defaultConfig.STALE_THRESHOLD ≤ 400 - hb.time)) := by
  exact session_status_tiers defaultConfig ⟨"A", "/a"⟩ 400
    ⟨[], [("A", ⟨⟨"A", 0, "/a", "active", [], none⟩, none⟩)],
      [("A", ⟨0, 300⟩)]⟩
    ⟨"A", true, "idle", "/a", 0, some 400, []⟩
    (by decide) (by decide) (by decide)

theorem register_session_unconditional_witness :
    alGet (registerSession defaultConfig ⟨"A", "/a"⟩ none 3
        State.empty).1.sessions "B" = alGet State.empty.sessions "B" := by
  exact (register_session_unconditional defaultConfig ⟨"A", "/a"⟩ none 3
    State.empty).2.2.2.1 "B" (by decide)

end Coordination
